import Mathlib

/-!
Verification of the contrastive RL network definitions
(`src/contrastive/networks.py`).

The numeric substrate is modelled over the real numbers: a tensor of rank 1
is a `List ℝ` (a `Vec`), a batch of vectors is a `List Vec` (a `Mat`), and
an image of shape 64×64×3 is a `List (List (List ℝ))`.  Library modules that
live outside the repository (the Atari convolutional torso, the squashed
Gaussian distribution head, the parameter initialiser) are modelled as
opaque function-valued parameters carried inside the parameter record; all
code of `networks.py` itself is translated directly.
-/

noncomputable section

namespace ContrastiveRL

abbrev Vec := List ℝ
abbrev Mat := List Vec
abbrev Image := List (List (List ℝ))

/-- Dot product of two vectors (`jnp` inner product over the last axis). -/
def dot (x y : Vec) : ℝ := (List.zipWith (fun a b => a * b) x y).sum

/-- Parameters of one dense layer: weight rows (one per output unit) and bias. -/
structure LinearParams where
  w : List Vec
  b : Vec

/-- Apply one dense layer: each output unit is the dot product of its weight
row with the input plus its bias. -/
def linearApply (p : LinearParams) (x : Vec) : Vec :=
  List.zipWith (fun row c => dot row x + c) p.w p.b

/-- Rectified linear activation, `jax.nn.relu`. -/
def relu (x : ℝ) : ℝ := max 0 x

/-- Model of `hk.nets.MLP` with `activate_final = False` (the default used by the
encoders): relu after every layer except the last. -/
def mlp : List LinearParams → Vec → Vec
  | [], x => x
  | [l], x => linearApply l x
  | l :: l2 :: ls, x => mlp (l2 :: ls) ((linearApply l x).map relu)

/-- Model of `hk.nets.MLP` with `activate_final = True` (used by the actor torso):
relu after every layer. -/
def mlpActAll : List LinearParams → Vec → Vec
  | [], x => x
  | l :: ls, x => mlpActAll ls ((linearApply l x).map relu)

/-- Sum of squares of the entries of a vector. -/
def sumSq (v : Vec) : ℝ := (v.map (fun x => x * x)).sum

/-- Per-row L2 norm, `jnp.linalg.norm(·, axis=1)` applied to one row. -/
def l2norm (v : Vec) : ℝ := Real.sqrt (sumSq v)

/-- Divide a row by its L2 norm (`x / jnp.linalg.norm(x, axis=1, keepdims=True)`
for one row). -/
def normalizeRow (v : Vec) : Vec := v.map (fun x => x / l2norm v)

/-- Split a list into consecutive chunks of size `n` (row-major reshape of the
leading axis).  Empty when `n = 0`. -/
def chunks {α : Type} : ℕ → List α → List (List α)
  | 0, _ => []
  | _ + 1, [] => []
  | n + 1, x :: xs => (x :: xs).take (n + 1) :: chunks (n + 1) (xs.drop n)
termination_by _ l => l.length
decreasing_by
  simp only [List.length_drop, List.length_cons]
  omega

/-- Model of `jnp.reshape(·, (-1, 64, 64, 3))` on a flat buffer: fails unless the
length is a multiple of 64·64·3 = 12288; otherwise produces the list of
64×64×3 images read off in row-major order. -/
def reshapeImages (l : List ℝ) : Option (List Image) :=
  if l.length % 12288 = 0 then
    some ((chunks 12288 l).map (fun im => chunks 64 (chunks 3 im)))
  else none

/-- Divide every pixel channel of an image by 255. -/
def imageDiv255 (img : Image) : Image :=
  img.map (fun row => row.map (fun px => px.map (fun v => v / 255)))

/-- The configuration closed over by `make_networks`: `obs_dim`, `repr_norm`,
`repr_norm_temp`, `twin_q`, `use_image_obs`. -/
structure Config where
  obsDim : ℕ
  reprNorm : Bool
  reprNormTemp : Bool
  twinQ : Bool
  useImageObs : Bool

/-- The flat state segment `obs[:, :obs_dim]` of a batch, row-major. -/
def stateSeg (cfg : Config) (obs : Mat) : List ℝ :=
  (obs.map (fun r => r.take cfg.obsDim)).flatten

/-- The flat goal segment `obs[:, obs_dim:]` of a batch, row-major. -/
def goalSeg (cfg : Config) (obs : Mat) : List ℝ :=
  (obs.map (fun r => r.drop cfg.obsDim)).flatten

/-- Model of `_unflatten_obs`: split each observation row at `obs_dim`, reshape both
segments to batches of 64×64×3 images, and scale pixel values by 1/255. -/
def unflatten_obs (cfg : Config) (obs : Mat) : Option (List Image × List Image) :=
  match reshapeImages (stateSeg cfg obs), reshapeImages (goalSeg cfg obs) with
  | some s, some g => some (s.map imageDiv255, g.map imageDiv255)
  | _, _ => none

/-- A parametric action distribution (the `NormalTanhDistribution` output),
kept abstract: a stochastic draw given a seed, a deterministic mode, and a
log-density. -/
structure ActionDist where
  sample : ℕ → Vec
  mode : Vec
  logProb : Vec → ℝ

/-- The learned parameter collection.  `saEncoder`, `gEncoder`, `lEncoder`
and `logScale` are the named Haiku parameters (`sa_encoder`, `g_encoder`,
`l_encoder`, `repr_log_scale`); `saEncoder2`/`gEncoder2` are the second
critic head's copies (`sa_encoder_1`, `g_encoder_1`); `imgEncoder`,
`actorTorso` and `distHead` model the library-provided Atari torso and the
actor's MLP/distribution head. -/
structure Params where
  saEncoder : List LinearParams
  gEncoder : List LinearParams
  saEncoder2 : List LinearParams
  gEncoder2 : List LinearParams
  lEncoder : List LinearParams
  logScale : ℝ
  imgEncoder : Image → Vec
  actorTorso : List LinearParams
  distHead : Vec → ActionDist

abbrev Hidden := Mat × Mat

/-- The `hidden is None` branch of `_repr_fn`: compute the (state, goal)
intermediate pair from the raw observation batch. -/
def hiddenOf (cfg : Config) (p : Params) (obs : Mat) : Option Hidden :=
  if cfg.useImageObs then
    (unflatten_obs cfg obs).map
      (fun sg => (sg.1.map p.imgEncoder, sg.2.map p.imgEncoder))
  else
    some (obs.map (fun r => r.take cfg.obsDim), obs.map (fun r => r.drop cfg.obsDim))

/-- Model of `_goal_fn`: the shared goal encoder (`g_encoder`) applied to a batch of
goal representations. -/
def goal_fn (p : Params) (goal : Mat) : Mat := goal.map (mlp p.gEncoder)

/-- The raw (pre-normalization) state-action embeddings: `sa_encoder`
applied to the row-wise concatenation of state and action. -/
def saRaw (enc : List LinearParams) (state action : Mat) : Mat :=
  (List.zipWith (fun s a => s ++ a) state action).map (mlp enc)

/-- The raw (pre-normalization) goal embeddings: the goal encoder applied
to each goal row. -/
def gRaw (enc : List LinearParams) (goal : Mat) : Mat := goal.map (mlp enc)

/-- The body of `_repr_fn` after the (state, goal) pair is fixed: encode,
then optionally L2-normalize both embeddings and divide the state-action
embedding by `exp(repr_log_scale)` when temperature scaling is on. -/
def reprFromHidden (cfg : Config) (saEnc gEnc : List LinearParams) (logScale : ℝ)
    (h : Hidden) (action : Mat) : Mat × Mat :=
  let sa := saRaw saEnc h.1 action
  let g := gRaw gEnc h.2
  if cfg.reprNorm then
    let saN := sa.map normalizeRow
    let gN := g.map normalizeRow
    let saT :=
      if cfg.reprNormTemp then
        saN.map (fun r => r.map (fun x => x / Real.exp logScale))
      else saN
    (saT, gN)
  else (sa, g)

/-- Model of `_repr_fn`: returns (state-action embedding, goal embedding, the
(state, goal) intermediate pair actually used).  When `hidden` is supplied
it is used directly; otherwise the intermediates are computed from `obs`. -/
def repr_fn (cfg : Config) (p : Params) (obs action : Mat)
    (hidden : Option Hidden) : Option (Mat × Mat × Hidden) :=
  match hidden with
  | some h =>
      let r := reprFromHidden cfg p.saEncoder p.gEncoder p.logScale h action
      some (r.1, r.2, h)
  | none =>
      (hiddenOf cfg p obs).map (fun h =>
        let r := reprFromHidden cfg p.saEncoder p.gEncoder p.logScale h action
        (r.1, r.2, h))

/-- Model of `_combine_repr`, that is of `einsum('ik,jk->ij', sa, g)`, the matrix of pairwise
dot products. -/
def combine_repr (saR gR : Mat) : Mat :=
  saR.map (fun s => gR.map (fun g => dot s g))

/-- Model of `jnp.stack([m1, m2], axis=-1)`: pair up the entries of two equally
shaped matrices along a new trailing axis of size 2. -/
def stackMat (m1 m2 : Mat) : List (List Vec) :=
  List.zipWith (fun r1 r2 => List.zipWith (fun a b => [a, b]) r1 r2) m1 m2

/-- The critic output: a batch×batch matrix, or batch×batch×2 when the twin
critic is enabled. -/
inductive CriticOut where
  | single : Mat → CriticOut
  | twin : List (List Vec) → CriticOut

/-- Model of `_critic_fn`: compute the representation, combine into a similarity
matrix; with `twin_q` recompute with the second head's encoders on the same
cached (state, goal) pair and stack the two matrices along a new trailing
axis. -/
def critic_fn (cfg : Config) (p : Params) (obs action : Mat) : Option CriticOut :=
  (hiddenOf cfg p obs).map (fun h =>
    let r1 := reprFromHidden cfg p.saEncoder p.gEncoder p.logScale h action
    let outer := combine_repr r1.1 r1.2
    if cfg.twinQ then
      let r2 := reprFromHidden cfg p.saEncoder2 p.gEncoder2 p.logScale h action
      CriticOut.twin (stackMat outer (combine_repr r2.1 r2.2))
    else CriticOut.single outer)

/-- Model of `_language_fn`: goal embedding through the shared goal encoder, language
embedding through `l_encoder`, and their similarity matrix. -/
def language_fn (p : Params) (goal lang : Mat) : Mat × Mat × Mat :=
  let g := goal_fn p goal
  let l := lang.map (mlp p.lEncoder)
  (g, l, combine_repr g l)

/-- Concatenate two images along the channel axis
(`jnp.concatenate([state, goal], axis=-1)`). -/
def concatImages (a b : Image) : Image :=
  List.zipWith (fun r1 r2 => List.zipWith (fun p1 p2 => p1 ++ p2) r1 r2) a b

/-- Model of `_actor_fn`: with image observations, unflatten, concatenate the state
and goal images channel-wise and run the torso; then the actor MLP
(`activate_final = True`) followed by the distribution head, per row. -/
def actor_fn (cfg : Config) (p : Params) (obs : Mat) : Option (List ActionDist) :=
  if cfg.useImageObs then
    (unflatten_obs cfg obs).map (fun sg =>
      (List.zipWith (fun s g => p.imgEncoder (concatImages s g)) sg.1 sg.2).map
        (fun f => p.distHead (mlpActAll p.actorTorso f)))
  else
    some (obs.map (fun r => p.distHead (mlpActAll p.actorTorso r)))

abbrev PolicyOut := Option (List ActionDist)
abbrev SampleFn := PolicyOut → ℕ → Option Mat

/-- Model of `networks_lib.FeedForwardNetwork`: an initialiser and a pure apply
function. -/
structure FeedForwardNetwork (I O : Type) where
  init : ℕ → Params
  apply : Params → I → O

/-- The `ContrastiveNetworks` dataclass: the five sub-networks plus the
sampling and log-probability functions.  `sample_eval` is optional with
default `none`. -/
structure ContrastiveNetworks where
  policy_network : FeedForwardNetwork Mat PolicyOut
  q_network : FeedForwardNetwork (Mat × Mat) (Option CriticOut)
  l_network : FeedForwardNetwork (Mat × Mat) (Mat × Mat × Mat)
  log_prob : PolicyOut → Mat → Option (List ℝ)
  goal_fn : Params → Mat → Mat
  repr_fn : Params → Mat → Mat → Option Hidden → Option (Mat × Mat × Hidden)
  sample : SampleFn
  sample_eval : Option SampleFn := none

/-- Model of `apply_policy_and_sample`: choose the stochastic or the evaluation
sampler; raise `ValueError('sample function is not provided')` when the
chosen sampler is absent; otherwise return the composed
apply-then-sample function. -/
def apply_policy_and_sample (networks : ContrastiveNetworks) (evalMode : Bool) :
    Except String (Params → ℕ → Mat → Option Mat) :=
  let sampleFn : Option SampleFn :=
    if evalMode then networks.sample_eval else some networks.sample
  match sampleFn with
  | none => Except.error "sample function is not provided"
  | some f =>
      Except.ok (fun params key obs =>
        f (networks.policy_network.apply params obs) key)

/-- The evaluation sampler installed by `make_networks`:
`lambda params, key: params.mode()` — ignores the key. -/
def modeSample : SampleFn :=
  fun pd _key => pd.map (fun ds => ds.map (fun d => d.mode))

/-- Model of `make_networks`: assemble the bundle.  The Haiku parameter initialiser
(`VarianceScaling` randomness) lives outside the repository and is passed in
abstractly as `initP`. -/
def make_networks (cfg : Config) (initP : ℕ → Params) : ContrastiveNetworks where
  policy_network := ⟨initP, fun p obs => actor_fn cfg p obs⟩
  q_network := ⟨initP, fun p oa => critic_fn cfg p oa.1 oa.2⟩
  l_network := ⟨initP, fun p gl => language_fn p gl.1 gl.2⟩
  log_prob := fun pd actions =>
    pd.map (fun ds => List.zipWith (fun d a => d.logProb a) ds actions)
  goal_fn := fun p g => goal_fn p g
  repr_fn := fun p obs action hidden => repr_fn cfg p obs action hidden
  sample := fun pd key => pd.map (fun ds => ds.map (fun d => d.sample key))
  sample_eval := some modeSample

/-- A trivial concrete distribution, used to build concrete bundles. -/
def defaultDist : ActionDist := ⟨fun _ => [], [], fun _ => 0⟩

/-- A concrete parameter record with empty encoders. -/
def defaultParams : Params :=
  ⟨[], [], [], [], [], 0, fun _ => [], [], fun _ => defaultDist⟩

/-- A concrete configuration: vector observations, no normalization, no
twin critic. -/
def cfgPlain : Config := ⟨0, false, false, false, false⟩

/-- A bundle whose evaluation sampler is unset. -/
def netsNoEval : ContrastiveNetworks :=
  { make_networks cfgPlain (fun _ => defaultParams) with sample_eval := none }

/-- Configuration with `repr_norm` on and `repr_norm_temp` off. -/
def cfgNormOnly : Config := ⟨0, true, false, false, false⟩

/-- Configuration with `repr_norm` and `repr_norm_temp` both on. -/
def cfgNormTemp : Config := ⟨0, true, true, false, false⟩

/-- Concrete parameters: a 1-unit state-action encoder with bias 1 and a
1×1 identity goal encoder, `repr_log_scale = 0`. -/
def pUnit : Params :=
  ⟨[⟨[[]], [1]⟩], [⟨[[1]], [0]⟩], [], [], [⟨[[1]], [0]⟩], 0,
    fun _ => [], [], fun _ => defaultDist⟩

/-- Variant of `pUnit` with `repr_log_scale = log 2`, so the temperature factor is 2. -/
def pTemp : Params := { pUnit with logScale := Real.log 2 }

/-- Configuration with the twin critic enabled (vector observations). -/
def cfgTwin : Config := ⟨0, false, false, true, false⟩

/-- `m` is an `r`-by-`c` matrix. -/
def matShape (m : Mat) (r c : ℕ) : Prop :=
  m.length = r ∧ ∀ row ∈ m, row.length = c

/-- `t` is an `r`-by-`c`-by-`k` array. -/
def cubeShape (t : List (List Vec)) (r c k : ℕ) : Prop :=
  t.length = r ∧ ∀ row ∈ t, row.length = c ∧ ∀ e ∈ row, e.length = k

/-- The shape contract of the critic output: an `N`-by-`N` matrix without
the twin critic, and an `N`-by-`N`-by-2 array with it. -/
def criticOutShape (N : ℕ) (tw : Bool) : Option CriticOut → Prop
  | some (CriticOut.single m) => tw = false ∧ matShape m N N
  | some (CriticOut.twin t) => tw = true ∧ cubeShape t N N 2
  | none => False

/-! ## General lemmas about the embedding -/

theorem dot_map_mul_left (c : ℝ) (x y : Vec) :
    dot (x.map (fun a => c * a)) y = c * dot x y := by
  induction x generalizing y with
  | nil => simp [dot]
  | cons a xs ih =>
    cases y with
    | nil => simp [dot]
    | cons b ys =>
      simp only [List.map_cons, dot, List.zipWith_cons_cons, List.sum_cons]
      have := ih ys
      simp only [dot] at this
      rw [this]
      ring

theorem repr_fn_inversion (cfg : Config) (p : Params) (obs action : Mat)
    (hidden : Option Hidden) (sa g : Mat) (h : Hidden)
    (hres : repr_fn cfg p obs action hidden = some (sa, g, h)) :
    sa = (reprFromHidden cfg p.saEncoder p.gEncoder p.logScale h action).1 ∧
    g = (reprFromHidden cfg p.saEncoder p.gEncoder p.logScale h action).2 := by
  cases hidden with
  | some h' =>
    simp only [repr_fn, Option.some.injEq, Prod.mk.injEq] at hres
    obtain ⟨hsa, hg, hh⟩ := hres
    subst hh
    exact ⟨hsa.symm, hg.symm⟩
  | none =>
    simp only [repr_fn] at hres
    cases hh : hiddenOf cfg p obs with
    | none => rw [hh] at hres; simp at hres
    | some h0 =>
      rw [hh] at hres
      simp only [Option.map_some', Option.some.injEq, Prod.mk.injEq] at hres
      obtain ⟨hsa, hg, hh0⟩ := hres
      subst hh0
      exact ⟨hsa.symm, hg.symm⟩

theorem chunks_length {α : Type} (n : ℕ) (hn : n ≠ 0) :
    ∀ (m : ℕ) (l : List α), l.length = m * n → (chunks n l).length = m := by
  obtain ⟨k, rfl⟩ := Nat.exists_eq_succ_of_ne_zero hn
  intro m
  induction m with
  | zero =>
    intro l hl
    have hnil : l = [] := List.eq_nil_of_length_eq_zero (by simpa using hl)
    subst hnil
    simp [chunks]
  | succ m ih =>
    intro l hl
    have hl' : l.length = m * Nat.succ k + Nat.succ k := by rw [hl, Nat.succ_mul]
    cases l with
    | nil => simp only [List.length_nil] at hl'; omega
    | cons x xs =>
      rw [chunks]
      simp only [List.length_cons]
      have hdrop : (xs.drop k).length = m * Nat.succ k := by
        simp only [List.length_drop]
        simp only [List.length_cons] at hl'
        omega
      rw [ih _ hdrop]

theorem chunks_mem_length {α : Type} (n : ℕ) (hn : n ≠ 0) :
    ∀ (m : ℕ) (l : List α), l.length = m * n → ∀ c ∈ chunks n l, c.length = n := by
  obtain ⟨k, rfl⟩ := Nat.exists_eq_succ_of_ne_zero hn
  intro m
  induction m with
  | zero =>
    intro l hl c hc
    have hnil : l = [] := List.eq_nil_of_length_eq_zero (by simpa using hl)
    subst hnil
    simp [chunks] at hc
  | succ m ih =>
    intro l hl c hc
    have hl' : l.length = m * Nat.succ k + Nat.succ k := by rw [hl, Nat.succ_mul]
    cases l with
    | nil => simp only [List.length_nil] at hl'; omega
    | cons x xs =>
      rw [chunks] at hc
      simp only [List.length_cons] at hl'
      rcases List.mem_cons.mp hc with rfl | hc2
      · simp only [List.length_take, List.length_cons]
        omega
      · have hdrop : (xs.drop k).length = m * Nat.succ k := by
          simp only [List.length_drop]
          omega
        exact ih _ hdrop c hc2

theorem chunks_subset {α : Type} (n : ℕ) :
    ∀ (N : ℕ) (l : List α), l.length ≤ N →
      ∀ c ∈ chunks n l, ∀ x ∈ c, x ∈ l := by
  intro N
  induction N with
  | zero =>
    intro l hl c hc x hx
    have hnil : l = [] := List.eq_nil_of_length_eq_zero (by omega)
    subst hnil
    cases n <;> simp [chunks] at hc
  | succ N ih =>
    intro l hl c hc x hx
    cases n with
    | zero => simp [chunks] at hc
    | succ k =>
      cases l with
      | nil => simp [chunks] at hc
      | cons y ys =>
        rw [chunks] at hc
        rcases List.mem_cons.mp hc with rfl | hc2
        · exact List.take_subset _ _ hx
        · have hys : (ys.drop k).length ≤ N := by
            simp only [List.length_drop]
            simp only [List.length_cons] at hl
            omega
          have hmem := ih (ys.drop k) hys c hc2 x hx
          exact List.mem_cons_of_mem y (List.drop_subset _ _ hmem)

theorem length_flatten_const {α β : Type} (L : List α) (f : α → List β) (k : ℕ)
    (hk : ∀ r ∈ L, (f r).length = k) :
    ((L.map f).flatten).length = L.length * k := by
  induction L with
  | nil => simp
  | cons a l ih =>
    simp only [List.map_cons, List.flatten_cons, List.length_append,
      List.length_cons]
    rw [hk a (List.mem_cons_self a l),
      ih (fun r hr => hk r (List.mem_cons_of_mem a hr)), Nat.succ_mul]
    omega

theorem reshapeImages_count (l : List ℝ) (N : ℕ) (hl : l.length = N * 12288) :
    ∃ imgs, reshapeImages l = some imgs ∧ imgs.length = N := by
  have hmod : l.length % 12288 = 0 := by rw [hl]; exact Nat.mul_mod_left N 12288
  rw [reshapeImages, if_pos hmod]
  exact ⟨_, rfl, by
    rw [List.length_map]
    exact chunks_length 12288 (by norm_num) N l hl⟩

theorem mem_zipWith {α β γ : Type} (f : α → β → γ) :
    ∀ (l1 : List α) (l2 : List β) (x : γ), x ∈ List.zipWith f l1 l2 →
      ∃ a b, a ∈ l1 ∧ b ∈ l2 ∧ x = f a b := by
  intro l1
  induction l1 with
  | nil => intro l2 x hx; simp at hx
  | cons a l ih =>
    intro l2 x hx
    cases l2 with
    | nil => simp at hx
    | cons b l2' =>
      rw [List.zipWith_cons_cons] at hx
      rcases List.mem_cons.mp hx with rfl | hx2
      · exact ⟨a, b, List.mem_cons_self a l, List.mem_cons_self b l2', rfl⟩
      · obtain ⟨a', b', ha', hb', rfl⟩ := ih l2' x hx2
        exact ⟨a', b', List.mem_cons_of_mem a ha', List.mem_cons_of_mem b hb', rfl⟩

theorem reprFromHidden_lengths (cfg : Config) (saEnc gEnc : List LinearParams)
    (logScale : ℝ) (h : Hidden) (action : Mat) :
    (reprFromHidden cfg saEnc gEnc logScale h action).1.length =
      min h.1.length action.length ∧
    (reprFromHidden cfg saEnc gEnc logScale h action).2.length = h.2.length := by
  rw [reprFromHidden]
  cases hn : cfg.reprNorm <;> cases ht : cfg.reprNormTemp <;>
    simp [saRaw, gRaw, List.length_zipWith]

theorem combine_repr_shape (A B : Mat) :
    matShape (combine_repr A B) A.length B.length := by
  constructor
  · simp [combine_repr]
  · intro row hrow
    simp only [combine_repr, List.mem_map] at hrow
    obtain ⟨s, _, rfl⟩ := hrow
    simp

theorem stackMat_shape (m1 m2 : Mat) (N : ℕ)
    (h1 : matShape m1 N N) (h2 : matShape m2 N N) :
    cubeShape (stackMat m1 m2) N N 2 := by
  obtain ⟨hl1, hr1⟩ := h1
  obtain ⟨hl2, hr2⟩ := h2
  constructor
  · simp [stackMat, List.length_zipWith, hl1, hl2]
  · intro row hrow
    obtain ⟨r1, r2, hm1, hm2, rfl⟩ := mem_zipWith _ _ _ _ hrow
    constructor
    · simp [List.length_zipWith, hr1 r1 hm1, hr2 r2 hm2]
    · intro e he
      obtain ⟨a, b, _, _, rfl⟩ := mem_zipWith _ _ _ _ he
      simp

theorem unflatten_obs_count (cfg : Config) (obs : Mat) (N : ℕ)
    (hobs : obs.length = N) (hdim : cfg.obsDim = 12288)
    (hrow : ∀ r ∈ obs, r.length = 24576) :
    ∃ s g, unflatten_obs cfg obs = some (s, g) ∧ s.length = N ∧ g.length = N := by
  have hs : (stateSeg cfg obs).length = N * 12288 := by
    rw [stateSeg, length_flatten_const obs _ 12288, hobs]
    intro r hr
    rw [List.length_take, hdim, hrow r hr]
    omega
  have hg : (goalSeg cfg obs).length = N * 12288 := by
    rw [goalSeg, length_flatten_const obs _ 12288, hobs]
    intro r hr
    rw [List.length_drop, hdim, hrow r hr]
  obtain ⟨si, hsi, hsl⟩ := reshapeImages_count _ N hs
  obtain ⟨gi, hgi, hgl⟩ := reshapeImages_count _ N hg
  refine ⟨si.map imageDiv255, gi.map imageDiv255, ?_, by simp [hsl], by simp [hgl]⟩
  rw [unflatten_obs, hsi, hgi]

theorem hiddenOf_lengths (cfg : Config) (p : Params) (obs : Mat) (N : ℕ)
    (hobs : obs.length = N)
    (hvalid : cfg.useImageObs = true →
      cfg.obsDim = 12288 ∧ ∀ r ∈ obs, r.length = 24576) :
    ∃ st gl, hiddenOf cfg p obs = some (st, gl) ∧
      st.length = N ∧ gl.length = N := by
  cases hui : cfg.useImageObs with
  | false =>
    refine ⟨obs.map (fun r => r.take cfg.obsDim),
      obs.map (fun r => r.drop cfg.obsDim), ?_, ?_, ?_⟩
    · rw [hiddenOf, hui]; simp
    · simp [hobs]
    · simp [hobs]
  | true =>
    obtain ⟨hdim, hrow⟩ := hvalid hui
    obtain ⟨s, g, hsg, hsl, hgl⟩ := unflatten_obs_count cfg obs N hobs hdim hrow
    refine ⟨s.map p.imgEncoder, g.map p.imgEncoder, ?_, by simp [hsl], by simp [hgl]⟩
    rw [hiddenOf, hui, if_pos rfl, hsg, Option.map_some']

theorem reshapeImages_shape (l : List ℝ) (imgs : List Image)
    (hres : reshapeImages l = some imgs) :
    ∀ img ∈ imgs, img.length = 64 ∧
      ∀ row ∈ img, row.length = 64 ∧ ∀ px ∈ row, px.length = 3 := by
  rw [reshapeImages] at hres
  by_cases hmod : l.length % 12288 = 0
  · rw [if_pos hmod] at hres
    injection hres with hres
    subst hres
    intro img himg
    rw [List.mem_map] at himg
    obtain ⟨c, hc, rfl⟩ := himg
    have hld : l.length = (l.length / 12288) * 12288 :=
      (Nat.div_mul_cancel (Nat.dvd_of_mod_eq_zero hmod)).symm
    have hcl : c.length = 12288 :=
      chunks_mem_length 12288 (by norm_num) (l.length / 12288) l hld c hc
    have hpx : (chunks 3 c).length = 4096 :=
      chunks_length 3 (by norm_num) 4096 c (by rw [hcl])
    constructor
    · exact chunks_length 64 (by norm_num) 64 (chunks 3 c) (by rw [hpx])
    · intro row hrow
      constructor
      · exact chunks_mem_length 64 (by norm_num) 64 (chunks 3 c)
          (by rw [hpx]) row hrow
      · intro px hpxm
        have hpxmem : px ∈ chunks 3 c :=
          chunks_subset 64 (chunks 3 c).length (chunks 3 c) le_rfl row hrow px hpxm
        exact chunks_mem_length 3 (by norm_num) 4096 c (by rw [hcl]) px hpxmem
  · rw [if_neg hmod] at hres
    simp at hres

theorem reshapeImages_mem (l : List ℝ) (imgs : List Image)
    (hres : reshapeImages l = some imgs) :
    ∀ img ∈ imgs, ∀ row ∈ img, ∀ px ∈ row, ∀ x ∈ px, x ∈ l := by
  rw [reshapeImages] at hres
  by_cases hmod : l.length % 12288 = 0
  · rw [if_pos hmod] at hres
    injection hres with hres
    subst hres
    intro img himg row hrow px hpx x hx
    rw [List.mem_map] at himg
    obtain ⟨c, hc, rfl⟩ := himg
    have h1 : px ∈ chunks 3 c :=
      chunks_subset 64 (chunks 3 c).length (chunks 3 c) le_rfl row hrow px hpx
    have h2 : x ∈ c := chunks_subset 3 c.length c le_rfl px h1 x hx
    exact chunks_subset 12288 l.length l le_rfl c hc x h2
  · rw [if_neg hmod] at hres
    simp at hres

theorem unflatten_obs_some (cfg : Config) (obs : Mat) (s g : List Image)
    (h : unflatten_obs cfg obs = some (s, g)) :
    ∃ si gi, reshapeImages (stateSeg cfg obs) = some si ∧
      reshapeImages (goalSeg cfg obs) = some gi ∧
      s = si.map imageDiv255 ∧ g = gi.map imageDiv255 := by
  rw [unflatten_obs] at h
  cases h1 : reshapeImages (stateSeg cfg obs) with
  | none =>
    cases h2 : reshapeImages (goalSeg cfg obs) with
    | none => rw [h1, h2] at h; simp at h
    | some gi => rw [h1, h2] at h; simp at h
  | some si =>
    cases h2 : reshapeImages (goalSeg cfg obs) with
    | none => rw [h1, h2] at h; simp at h
    | some gi =>
      rw [h1, h2] at h
      simp only [Option.some.injEq, Prod.mk.injEq] at h
      exact ⟨si, gi, rfl, rfl, h.1.symm, h.2.symm⟩

theorem mapped_images_shape (l : List ℝ) (imgs : List Image)
    (hres : reshapeImages l = some imgs) :
    ∀ img ∈ imgs.map imageDiv255, img.length = 64 ∧
      ∀ row ∈ img, row.length = 64 ∧ ∀ px ∈ row, px.length = 3 := by
  intro img himg
  rw [List.mem_map] at himg
  obtain ⟨img0, him0, rfl⟩ := himg
  obtain ⟨h1, h2⟩ := reshapeImages_shape l imgs hres img0 him0
  constructor
  · simp [imageDiv255, h1]
  · intro row hrow
    simp only [imageDiv255, List.mem_map] at hrow
    obtain ⟨row0, hrow0, rfl⟩ := hrow
    obtain ⟨hl, hpx⟩ := h2 row0 hrow0
    constructor
    · simp [hl]
    · intro px hpxm
      rw [List.mem_map] at hpxm
      obtain ⟨px0, hpx0, rfl⟩ := hpxm
      simp [hpx px0 hpx0]

theorem mapped_images_range (l : List ℝ) (imgs : List Image)
    (hres : reshapeImages l = some imgs)
    (hl : ∀ x ∈ l, 0 ≤ x ∧ x ≤ 255) :
    ∀ img ∈ imgs.map imageDiv255, ∀ row ∈ img, ∀ px ∈ row, ∀ v ∈ px,
      0 ≤ v ∧ v ≤ 1 := by
  intro img himg row hrow px hpx v hv
  rw [List.mem_map] at himg
  obtain ⟨img0, him0, rfl⟩ := himg
  simp only [imageDiv255, List.mem_map] at hrow
  obtain ⟨row0, hrow0, rfl⟩ := hrow
  rw [List.mem_map] at hpx
  obtain ⟨px0, hpx0, rfl⟩ := hpx
  rw [List.mem_map] at hv
  obtain ⟨x, hx, rfl⟩ := hv
  have hmem : x ∈ l := reshapeImages_mem l imgs hres img0 him0 row0 hrow0 px0 hpx0 x hx
  obtain ⟨hx0, hx255⟩ := hl x hmem
  constructor
  · exact div_nonneg hx0 (by norm_num)
  · rw [div_le_one (by norm_num)]
    linarith

theorem stateSeg_range (cfg : Config) (obs : Mat)
    (hobs : ∀ r ∈ obs, ∀ x ∈ r, 0 ≤ x ∧ x ≤ 255) :
    ∀ x ∈ stateSeg cfg obs, 0 ≤ x ∧ x ≤ 255 := by
  intro x hx
  rw [stateSeg, List.mem_flatten] at hx
  obtain ⟨seg, hseg, hxseg⟩ := hx
  rw [List.mem_map] at hseg
  obtain ⟨r, hr, rfl⟩ := hseg
  exact hobs r hr x (List.take_subset _ _ hxseg)

theorem goalSeg_range (cfg : Config) (obs : Mat)
    (hobs : ∀ r ∈ obs, ∀ x ∈ r, 0 ≤ x ∧ x ≤ 255) :
    ∀ x ∈ goalSeg cfg obs, 0 ≤ x ∧ x ≤ 255 := by
  intro x hx
  rw [goalSeg, List.mem_flatten] at hx
  obtain ⟨seg, hseg, hxseg⟩ := hx
  rw [List.mem_map] at hseg
  obtain ⟨r, hr, rfl⟩ := hseg
  exact hobs r hr x (List.drop_subset _ _ hxseg)

theorem sumSq_cons (a : ℝ) (v : Vec) : sumSq (a :: v) = a * a + sumSq v := by
  simp [sumSq]

theorem sumSq_nonneg (v : Vec) : 0 ≤ sumSq v := by
  induction v with
  | nil => simp [sumSq]
  | cons a xs ih =>
    rw [sumSq_cons]
    have := mul_self_nonneg a
    linarith

theorem sumSq_pos (v : Vec) (x : ℝ) (hx : x ∈ v) (hxne : x ≠ 0) : 0 < sumSq v := by
  induction v with
  | nil => simp at hx
  | cons a xs ih =>
    rw [sumSq_cons]
    rcases List.mem_cons.mp hx with h | h
    · subst h
      have h1 : 0 < x * x := mul_self_pos.mpr hxne
      have := sumSq_nonneg xs
      linarith
    · have := ih h
      have := mul_self_nonneg a
      linarith

theorem sumSq_map_div (v : Vec) (c : ℝ) :
    sumSq (v.map (fun x => x / c)) = sumSq v / (c * c) := by
  induction v with
  | nil => simp [sumSq]
  | cons a xs ih =>
    simp only [List.map_cons, sumSq_cons, ih]
    rw [div_mul_div_comm, add_div]

theorem l2norm_normalizeRow (v : Vec) (hv : sumSq v ≠ 0) :
    l2norm (normalizeRow v) = 1 := by
  rw [normalizeRow, l2norm, sumSq_map_div]
  rw [show l2norm v * l2norm v = sumSq v from Real.mul_self_sqrt (sumSq_nonneg v)]
  rw [div_self hv, Real.sqrt_one]

theorem l2norm_map_div_pos (v : Vec) (c : ℝ) (hc : 0 < c) :
    l2norm (v.map (fun x => x / c)) = l2norm v / c := by
  rw [l2norm, sumSq_map_div, Real.sqrt_div (sumSq_nonneg v),
    Real.sqrt_mul_self hc.le, l2norm]

/-! ## Claim theorems -/

/-- Claim C3 (amended): with `repr_norm` enabled, every goal embedding row
whose pre-normalization row is nonzero has unit L2 norm; a state-action
embedding row whose pre-normalization row is nonzero has unit L2 norm when
temperature scaling is off, and norm `exp(-repr_log_scale)` when it is on. -/
theorem repr_norm_unit (cfg : Config) (p : Params) (obs action : Mat)
    (hidden : Option Hidden) (sa g st gl : Mat)
    (hn : cfg.reprNorm = true)
    (hres : repr_fn cfg p obs action hidden = some (sa, g, (st, gl))) :
    (∀ i : ℕ, i < g.length →
      (∃ x ∈ (gRaw p.gEncoder gl).getD i [], x ≠ 0) →
      l2norm (g.getD i []) = 1) ∧
    (∀ i : ℕ, i < sa.length →
      (∃ x ∈ (saRaw p.saEncoder st action).getD i [], x ≠ 0) →
      l2norm (sa.getD i []) =
        (if cfg.reprNormTemp then Real.exp (-p.logScale) else 1)) := by
  obtain ⟨hsa, hg⟩ := repr_fn_inversion cfg p obs action hidden sa g (st, gl) hres
  simp only [reprFromHidden, hn, if_true] at hsa hg
  constructor
  · intro i hi hraw
    rw [hg] at hi ⊢
    have hi' : i < (gRaw p.gEncoder gl).length := by simpa using hi
    rw [List.getD_eq_getElem _ _ hi, List.getElem_map]
    obtain ⟨x, hx, hxne⟩ := hraw
    rw [List.getD_eq_getElem _ _ hi'] at hx
    exact l2norm_normalizeRow _ (ne_of_gt (sumSq_pos _ x hx hxne))
  · intro i hi hraw
    obtain ⟨x, hx, hxne⟩ := hraw
    cases ht : cfg.reprNormTemp with
    | true =>
      simp only [ht, if_true] at hsa ⊢
      rw [hsa] at hi ⊢
      have hi2 : i < ((saRaw p.saEncoder st action).map normalizeRow).length := by
        simpa using hi
      have hi' : i < (saRaw p.saEncoder st action).length := by simpa using hi
      rw [List.getD_eq_getElem _ _ hi, List.getElem_map, List.getElem_map]
      rw [List.getD_eq_getElem _ _ hi'] at hx
      have hnz : sumSq ((saRaw p.saEncoder st action)[i]) ≠ 0 :=
        ne_of_gt (sumSq_pos _ x hx hxne)
      rw [l2norm_map_div_pos _ _ (Real.exp_pos p.logScale),
        l2norm_normalizeRow _ hnz, Real.exp_neg, one_div]
    | false =>
      simp only [ht, Bool.false_eq_true, if_false] at hsa ⊢
      rw [hsa] at hi ⊢
      have hi' : i < (saRaw p.saEncoder st action).length := by simpa using hi
      rw [List.getD_eq_getElem _ _ hi, List.getElem_map]
      rw [List.getD_eq_getElem _ _ hi'] at hx
      exact l2norm_normalizeRow _ (ne_of_gt (sumSq_pos _ x hx hxne))

theorem sqrt_four : Real.sqrt 4 = 2 := by
  rw [show (4:ℝ) = 2 ^ 2 by norm_num]
  exact Real.sqrt_sq (by norm_num)

theorem repr_fn_pUnit_plain :
    repr_fn cfgPlain pUnit [[2]] [[]] none = some ([[1]], [[2]], ([[]], [[2]])) := by
  simp [repr_fn, hiddenOf, cfgPlain, reprFromHidden, saRaw, gRaw, pUnit,
    mlp, linearApply, dot]

theorem repr_fn_pUnit_normOnly :
    repr_fn cfgNormOnly pUnit [[2]] [[]] none = some ([[1]], [[1]], ([[]], [[2]])) := by
  simp [repr_fn, hiddenOf, cfgNormOnly, reprFromHidden, saRaw, gRaw, pUnit,
    mlp, linearApply, dot, normalizeRow, l2norm, sumSq]

theorem repr_fn_pUnit_normTemp :
    repr_fn cfgNormTemp pUnit [[2]] [[]] none = some ([[1]], [[1]], ([[]], [[2]])) := by
  simp [repr_fn, hiddenOf, cfgNormTemp, reprFromHidden, saRaw, gRaw, pUnit,
    mlp, linearApply, dot, normalizeRow, l2norm, sumSq, Real.exp_zero]

theorem repr_fn_pTemp_eval :
    repr_fn cfgNormTemp pTemp [[2]] [[]] none =
      some ([[1/2]], [[1]], ([[]], [[2]])) := by
  have he : Real.exp pTemp.logScale = 2 := Real.exp_log (by norm_num)
  simp [repr_fn, hiddenOf, cfgNormTemp, reprFromHidden, saRaw, gRaw, pTemp, pUnit,
    mlp, linearApply, dot, normalizeRow, l2norm, sumSq, he]
  norm_num [sqrt_four, Real.exp_log]

/-- Claim C1 (amended): the goal embedding produced through the critic's
representation path equals the language network's goal embedding for the
same goal input and shared parameters whenever `repr_norm` is disabled
(the default); with `repr_norm` enabled the representation path additionally
L2-normalizes the goal embedding, so the two can differ. -/
theorem shared_goal_encoder (cfg : Config) (p : Params) (obs action lang : Mat)
    (hidden : Option Hidden) (sa g st gl : Mat)
    (hn : cfg.reprNorm = false)
    (hres : repr_fn cfg p obs action hidden = some (sa, g, (st, gl))) :
    g = (language_fn p gl lang).1 := by
  obtain ⟨_, hg⟩ := repr_fn_inversion cfg p obs action hidden sa g (st, gl) hres
  simp only [reprFromHidden, hn, Bool.false_eq_true, if_false] at hg
  simpa [language_fn, goal_fn, gRaw] using hg

/-- Witness for C1 (amended) at concrete shared parameters. -/
theorem shared_goal_encoder_witness :
    repr_fn cfgPlain pUnit [[2]] [[]] none = some ([[1]], [[2]], ([[]], [[2]])) ∧
    ([[(2:ℝ)]] : Mat) = (language_fn pUnit [[2]] []).1 :=
  ⟨repr_fn_pUnit_plain,
   shared_goal_encoder cfgPlain pUnit [[2]] [[]] [] none [[1]] [[2]] [[]] [[2]]
     rfl repr_fn_pUnit_plain⟩

/-- Counterexample to C1 as stated: with `repr_norm` enabled and the same
shared goal-encoder parameters, the critic-path goal embedding is the
normalized `[[1]]` while the language-path goal embedding is `[[2]]`. -/
theorem shared_goal_encoder_cex :
    repr_fn cfgNormOnly pUnit [[2]] [[]] none = some ([[1]], [[1]], ([[]], [[2]])) ∧
    (language_fn pUnit [[2]] []).1 = [[2]] ∧
    ([[(1:ℝ)]] : Mat) ≠ [[2]] := by
  refine ⟨repr_fn_pUnit_normOnly, ?_, ?_⟩
  · simp [language_fn, goal_fn, pUnit, mlp, linearApply, dot]
  · norm_num

/-- Witness for C3 (amended): at `cfgNormOnly`/`pUnit`, the returned goal
embedding row has unit L2 norm. -/
theorem repr_norm_unit_witness :
    repr_fn cfgNormOnly pUnit [[2]] [[]] none = some ([[1]], [[1]], ([[]], [[2]])) ∧
    l2norm (([[(1:ℝ)]] : Mat).getD 0 []) = 1 := by
  refine ⟨repr_fn_pUnit_normOnly, ?_⟩
  refine (repr_norm_unit cfgNormOnly pUnit [[2]] [[]] none [[1]] [[1]] [[]] [[2]]
    rfl repr_fn_pUnit_normOnly).1 0 (by decide) ?_
  have hval : (gRaw pUnit.gEncoder [[2]]).getD 0 [] = [2] := by
    simp [gRaw, pUnit, mlp, linearApply, dot]
  rw [hval]
  exact ⟨2, by simp, by norm_num⟩

/-- Counterexample to C3 as stated: with temperature scaling on and
`repr_log_scale = log 2`, the state-action embedding for a nonzero raw
embedding is `[1/2]`, whose L2 norm is not 1. -/
theorem repr_norm_unit_cex :
    repr_fn cfgNormTemp pTemp [[2]] [[]] none =
      some ([[1/2]], [[1]], ([[]], [[2]])) ∧
    (saRaw pTemp.saEncoder [[]] [[]]).getD 0 [] = [1] ∧
    (1:ℝ) ≠ 0 ∧
    l2norm [(1:ℝ)/2] ≠ 1 := by
  refine ⟨repr_fn_pTemp_eval, ?_, by norm_num, ?_⟩
  · simp [saRaw, pTemp, pUnit, mlp, linearApply, dot]
  · have hh : l2norm [(1:ℝ)/2] = 1/2 := by
      rw [l2norm, sumSq]
      rw [show ((([(1:ℝ)/2].map (fun x => x * x))).sum : ℝ) = (1/2) ^ 2 by
        simp; norm_num [pow_two]]
      exact Real.sqrt_sq (by norm_num)
    rw [hh]
    norm_num

/-- Claim C5: with normalization and temperature scaling enabled and the
learned log-scale at its zero initialization, the returned state-action
embedding is exactly the normalized raw embedding (the scale factor
`exp 0` is 1). -/
theorem repr_temp_zero (cfg : Config) (p : Params) (obs action : Mat)
    (hidden : Option Hidden) (sa g st gl : Mat)
    (hn : cfg.reprNorm = true) (ht : cfg.reprNormTemp = true)
    (hls : p.logScale = 0)
    (hres : repr_fn cfg p obs action hidden = some (sa, g, (st, gl))) :
    sa = (saRaw p.saEncoder st action).map normalizeRow := by
  obtain ⟨hsa, _⟩ := repr_fn_inversion cfg p obs action hidden sa g (st, gl) hres
  simp only [reprFromHidden, hn, ht, hls, if_true, Real.exp_zero, div_one] at hsa
  simpa using hsa

/-- Witness for C5 at `repr_log_scale = 0`. -/
theorem repr_temp_zero_witness :
    repr_fn cfgNormTemp pUnit [[2]] [[]] none = some ([[1]], [[1]], ([[]], [[2]])) ∧
    ([[(1:ℝ)]] : Mat) = (saRaw pUnit.saEncoder [[]] [[]]).map normalizeRow :=
  ⟨repr_fn_pUnit_normTemp,
   repr_temp_zero cfgNormTemp pUnit [[2]] [[]] none [[1]] [[1]] [[]] [[2]]
     rfl rfl rfl repr_fn_pUnit_normTemp⟩

/-- Claim C2: for a valid batch of `N` observations and `N` actions, the
critic output is an `N`-by-`N` matrix of pairwise inner products when the
twin critic is disabled and an `N`-by-`N`-by-2 stack when it is enabled.
(With image observations, validity means 64×64×3 state and goal segments.) -/
theorem critic_shape (cfg : Config) (p : Params) (obs action : Mat) (N : ℕ)
    (hobs : obs.length = N) (hact : action.length = N)
    (hvalid : cfg.useImageObs = true →
      cfg.obsDim = 12288 ∧ ∀ r ∈ obs, r.length = 24576) :
    criticOutShape N cfg.twinQ (critic_fn cfg p obs action) := by
  obtain ⟨st, gl, hh, hstl, hgll⟩ := hiddenOf_lengths cfg p obs N hobs hvalid
  have hr1 := reprFromHidden_lengths cfg p.saEncoder p.gEncoder p.logScale
    (st, gl) action
  have hr2 := reprFromHidden_lengths cfg p.saEncoder2 p.gEncoder2 p.logScale
    (st, gl) action
  have hsh1 : matShape
      (combine_repr
        (reprFromHidden cfg p.saEncoder p.gEncoder p.logScale (st, gl) action).1
        (reprFromHidden cfg p.saEncoder p.gEncoder p.logScale (st, gl) action).2)
      N N := by
    have := combine_repr_shape
      (reprFromHidden cfg p.saEncoder p.gEncoder p.logScale (st, gl) action).1
      (reprFromHidden cfg p.saEncoder p.gEncoder p.logScale (st, gl) action).2
    rw [hr1.1, hr1.2] at this
    simp only [hstl, hact, hgll, min_self] at this
    exact this
  have hsh2 : matShape
      (combine_repr
        (reprFromHidden cfg p.saEncoder2 p.gEncoder2 p.logScale (st, gl) action).1
        (reprFromHidden cfg p.saEncoder2 p.gEncoder2 p.logScale (st, gl) action).2)
      N N := by
    have := combine_repr_shape
      (reprFromHidden cfg p.saEncoder2 p.gEncoder2 p.logScale (st, gl) action).1
      (reprFromHidden cfg p.saEncoder2 p.gEncoder2 p.logScale (st, gl) action).2
    rw [hr2.1, hr2.2] at this
    simp only [hstl, hact, hgll, min_self] at this
    exact this
  rw [critic_fn, hh, Option.map_some']
  cases htw : cfg.twinQ with
  | false =>
    simp only [htw, Bool.false_eq_true, if_false]
    exact ⟨rfl, hsh1⟩
  | true =>
    simp only [htw, if_true]
    exact ⟨rfl, stackMat_shape _ _ N hsh1 hsh2⟩

/-- Witness for C2 on a concrete one-element batch (twin critic off). -/
theorem critic_shape_witness :
    criticOutShape 1 cfgPlain.twinQ (critic_fn cfgPlain pUnit [[2]] [[]]) :=
  critic_shape cfgPlain pUnit [[2]] [[]] 1 rfl rfl (by simp [cfgPlain])

/-- Claim C4: passing the cached (state, goal) pair back into the
representation function reproduces exactly the from-scratch result, and the
twin critic's second head is evaluated on exactly the pair cached by the
first head's call. -/
theorem repr_hidden_cache (cfg : Config) (p : Params) (obs action : Mat)
    (sa g : Mat) (h : Hidden)
    (hres : repr_fn cfg p obs action none = some (sa, g, h)) :
    repr_fn cfg p obs action (some h) = some (sa, g, h) ∧
    (cfg.twinQ = true →
      critic_fn cfg p obs action = some (CriticOut.twin
        (stackMat (combine_repr sa g)
          (combine_repr
            (reprFromHidden cfg p.saEncoder2 p.gEncoder2 p.logScale h action).1
            (reprFromHidden cfg p.saEncoder2 p.gEncoder2 p.logScale h action).2)))) := by
  have hh : hiddenOf cfg p obs = some h := by
    simp only [repr_fn] at hres
    cases hho : hiddenOf cfg p obs with
    | none => rw [hho] at hres; simp at hres
    | some h0 =>
      rw [hho] at hres
      simp only [Option.map_some', Option.some.injEq, Prod.mk.injEq] at hres
      rw [hres.2.2]
  obtain ⟨hsa, hg⟩ := repr_fn_inversion cfg p obs action none sa g h hres
  constructor
  · simp only [repr_fn, hsa, hg]
  · intro htw
    simp only [critic_fn, hh, Option.map_some', htw, if_true, hsa, hg]

/-- Witness for C4 at a concrete vector-observation input with the twin
critic enabled. -/
theorem repr_hidden_cache_witness :
    repr_fn cfgTwin pUnit [[2]] [[]] none = some ([[1]], [[2]], ([[]], [[2]])) ∧
    repr_fn cfgTwin pUnit [[2]] [[]] (some ([[]], [[2]])) =
      some ([[1]], [[2]], ([[]], [[2]])) := by
  have h0 : repr_fn cfgTwin pUnit [[2]] [[]] none =
      some ([[1]], [[2]], ([[]], [[2]])) := by
    simp [repr_fn, hiddenOf, cfgTwin, reprFromHidden, saRaw, gRaw, pUnit,
      mlp, linearApply, dot]
  exact ⟨h0, (repr_hidden_cache cfgTwin pUnit [[2]] [[]] [[1]] [[2]]
    ([[]], [[2]]) h0).1⟩

/-- Claim C6: similarity combination is homogeneous in the row embeddings —
scaling every row embedding by `c` scales the whole matrix by `c` — and
entry (i, j) of the combined matrix is the dot product of row `i` of the
row-embedding batch with row `j` of the column-embedding batch. -/
theorem combine_repr_spec (c : ℝ) (A B : Mat) :
    combine_repr (A.map (fun r => r.map (fun x => c * x))) B =
      (combine_repr A B).map (fun r => r.map (fun x => c * x)) ∧
    ∀ i j : ℕ, i < A.length → j < B.length →
      ((combine_repr A B).getD i []).getD j 0 = dot (A.getD i []) (B.getD j []) := by
  constructor
  · simp only [combine_repr, List.map_map]
    apply List.map_congr_left
    intro s _
    simp only [Function.comp_apply, List.map_map]
    apply List.map_congr_left
    intro g _
    simp only [Function.comp_apply]
    exact dot_map_mul_left c s g
  · intro i j hi hj
    have hlen : i < (combine_repr A B).length := by
      simpa [combine_repr] using hi
    rw [List.getD_eq_getElem _ _ hlen, List.getD_eq_getElem _ _ hi,
      List.getD_eq_getElem _ _ hj]
    simp only [combine_repr]
    rw [List.getElem_map]
    have hj2 : j < (List.map (fun g => dot A[i] g) B).length := by simpa using hj
    rw [List.getD_eq_getElem _ _ hj2, List.getElem_map]

/-- Witness for C6 at `c = 2`, `A = [[1, 2]]`, `B = [[3, 4]]`. -/
theorem combine_repr_spec_witness :
    ((combine_repr [[(1:ℝ), 2]] [[3, 4]]).getD 0 []).getD 0 0 =
      dot (([[(1:ℝ), 2]] : Mat).getD 0 []) (([[(3:ℝ), 4]] : Mat).getD 0 []) :=
  (combine_repr_spec 2 [[(1:ℝ), 2]] [[3, 4]]).2 0 0 (by norm_num) (by norm_num)

/-- Claim C7: requesting evaluation-mode sampling on a bundle whose
`sample_eval` is unset yields the `ValueError` with message
"sample function is not provided", never a silent fallback to the
stochastic sampler. -/
theorem sample_eval_missing_error (nets : ContrastiveNetworks)
    (hne : nets.sample_eval = none) :
    apply_policy_and_sample nets true =
      Except.error "sample function is not provided" := by
  simp [apply_policy_and_sample, hne]

/-- Witness for C7 on a concrete bundle with no evaluation sampler. -/
theorem sample_eval_missing_error_witness :
    apply_policy_and_sample netsNoEval true =
      Except.error "sample function is not provided" :=
  sample_eval_missing_error netsNoEval rfl

/-- Claim C8: observation unflattening is a pure function that splits the
flat batch at the `obs_dim` boundary, reshapes each segment into 64×64×3
image tensors, and scales pixel values by 1/255 so that inputs in [0, 255]
land in [0, 1]; it fails exactly when a segment's flat length is not a
multiple of 64·64·3. -/
theorem unflatten_obs_spec (cfg : Config) (obs : Mat) :
    ((unflatten_obs cfg obs = none) ↔
      ¬(stateSeg cfg obs).length % 12288 = 0 ∨
      ¬(goalSeg cfg obs).length % 12288 = 0) ∧
    (∀ s g, unflatten_obs cfg obs = some (s, g) →
      (∀ img ∈ s ++ g, img.length = 64 ∧
        ∀ row ∈ img, row.length = 64 ∧ ∀ px ∈ row, px.length = 3) ∧
      ((∀ r ∈ obs, ∀ x ∈ r, 0 ≤ x ∧ x ≤ 255) →
        ∀ img ∈ s ++ g, ∀ row ∈ img, ∀ px ∈ row, ∀ v ∈ px,
          0 ≤ v ∧ v ≤ 1)) := by
  constructor
  · rw [unflatten_obs]
    by_cases h1 : (stateSeg cfg obs).length % 12288 = 0 <;>
      by_cases h2 : (goalSeg cfg obs).length % 12288 = 0 <;>
        simp [reshapeImages, h1, h2]
  · intro s g hsome
    obtain ⟨si, gi, hsi, hgi, rfl, rfl⟩ := unflatten_obs_some cfg obs s g hsome
    constructor
    · intro img himg
      rcases List.mem_append.mp himg with him | him
      · exact mapped_images_shape _ si hsi img him
      · exact mapped_images_shape _ gi hgi img him
    · intro hobs img himg
      rcases List.mem_append.mp himg with him | him
      · exact mapped_images_range _ si hsi (stateSeg_range cfg obs hobs) img him
      · exact mapped_images_range _ gi hgi (goalSeg_range cfg obs hobs) img him

/-- Witness for C8: on the empty batch unflattening succeeds with empty
image lists, and on a 1-entry row with boundary 0 it fails because the goal
segment length 1 is not a multiple of 12288. -/
theorem unflatten_obs_spec_witness :
    unflatten_obs cfgPlain ([] : Mat) = some ([], []) ∧
    (∀ img ∈ ([] : List Image) ++ [], img.length = 64 ∧
      ∀ row ∈ img, row.length = 64 ∧ ∀ px ∈ row, px.length = 3) ∧
    (unflatten_obs cfgPlain [[2]] = none) := by
  have hempty : unflatten_obs cfgPlain ([] : Mat) = some ([], []) := by
    simp [unflatten_obs, stateSeg, goalSeg, reshapeImages, chunks]
  refine ⟨hempty, ?_, ?_⟩
  · exact ((unflatten_obs_spec cfgPlain []).2 [] [] hempty).1
  · exact ((unflatten_obs_spec cfgPlain [[2]]).1).mpr (Or.inr (by norm_num [goalSeg, cfgPlain]))

/-- Claim C9: every bundle built by `make_networks` carries a present
`sample_eval` (the distribution mode), so evaluation-mode sampling on a
factory-built bundle never hits the missing-sampler error. -/
theorem make_networks_sample_eval (cfg : Config) (initP : ℕ → Params) :
    (make_networks cfg initP).sample_eval = some modeSample ∧
    apply_policy_and_sample (make_networks cfg initP) true =
      Except.ok (fun params key obs =>
        modeSample ((make_networks cfg initP).policy_network.apply params obs) key) := by
  constructor
  · rfl
  · rfl

/-- Claim C10: the evaluation sampler installed by `make_networks` ignores
its randomness key: any two keys give the same result (the mode). -/
theorem sample_eval_ignores_key (cfg : Config) (initP : ℕ → Params)
    (f : SampleFn) (hf : (make_networks cfg initP).sample_eval = some f)
    (pd : PolicyOut) (k1 k2 : ℕ) : f pd k1 = f pd k2 := by
  have hfm : f = modeSample := by
    have h2 : (make_networks cfg initP).sample_eval = some modeSample := rfl
    rw [hf] at h2
    exact Option.some.injEq f modeSample ▸ h2
  subst hfm
  rfl

/-- Witness for C10: on a concrete bundle and distribution, keys 0 and 1
give the same evaluation-mode sample. -/
theorem sample_eval_ignores_key_witness :
    modeSample (some [defaultDist]) 0 = modeSample (some [defaultDist]) 1 :=
  sample_eval_ignores_key cfgPlain (fun _ => defaultParams) modeSample rfl
    (some [defaultDist]) 0 1

end ContrastiveRL
